import Mathlib

/-!
# Verification of farmOS.py (client facade) against its design spec

Shallow embedding of `src/farmOS/__init__.py` (the `farmOS` class) together
with the parts of its environment the code depends on:

* `urllib.parse.urlparse` / `urlunparse`, modelled character-exactly after
  CPython 3.11.6 `Lib/urllib/parse.py` on `List Char`.  The only part left
  out of the model is `_checknetloc`, which is the identity whenever the
  network location is pure ASCII: its non-ASCII NFKC validation is outside
  the model, so universally quantified theorems describe the code's
  behaviour on inputs on which `_checknetloc` is silent (in particular on
  every all-ASCII input; all concrete witnesses are ASCII).
* `ClientConfig` (`src/farmOS/config.py` is not under `src/`), modelled from
  the spec, section 4.1 "Config Store".
* `OAuthSession` (`src/farmOS/session.py` is not under `src/`), modelled from
  the spec, section 4.4 "Session Manager": construction only records the
  normalized hostname, credentials, token and token URL.

Strings are modelled as `List Char`; numbers that Python holds as
`int`/`float` are modelled as `ℚ` (exact arithmetic; the spec's token
normalization is stated exactly, `expires_in = expires_at - now`).
-/

deriving instance DecidableEq for Except

/-! ## CPython 3.11.6 `urllib.parse` model -/

/-- `url.find(c)`-style first split: `splitOnFirst c l = some (a, b)` iff
`l = a ++ c :: b` with `c ∉ a`; `none` iff `c ∉ l`. -/
def splitOnFirst (c : Char) : List Char → Option (List Char × List Char)
  | [] => none
  | x :: xs =>
    if x = c then some ([], xs)
    else match splitOnFirst c xs with
      | some (a, b) => some (x :: a, b)
      | none => none

/-- `url.rfind(c)`-style last split: splits at the last occurrence of `c`. -/
def splitOnLast (c : Char) : List Char → Option (List Char × List Char)
  | [] => none
  | x :: xs =>
    match splitOnLast c xs with
    | some (a, b) => some (x :: a, b)
    | none => if x = c then some ([], xs) else none

/-- `scheme_chars` of `urllib.parse`: letters, digits, `+`, `-`, `.`. -/
def schemeChar (c : Char) : Bool :=
  c.isAlpha || c.isDigit || c = '+' || c = '-' || c = '.'

/-- A character surviving `_UNSAFE_URL_BYTES_TO_REMOVE` (`\t`, `\r`, `\n`). -/
def urlSafeChar (c : Char) : Bool :=
  ¬(c = '\t' ∨ c = '\r' ∨ c = '\n')

/-- A character that does not end the domain part in `_splitnetloc`
(the delimiters are `/`, `?`, `#`). -/
def netlocChar (c : Char) : Bool :=
  ¬(c = '/' ∨ c = '?' ∨ c = '#')

/-- Result of `urlsplit`: scheme, netloc, path, query, fragment. -/
structure SplitResult where
  scheme : List Char
  netloc : List Char
  path : List Char
  query : List Char
  fragment : List Char
deriving DecidableEq, Repr

/-- Result of `urlparse`: scheme, netloc, path, params, query, fragment. -/
structure ParseResult where
  scheme : List Char
  netloc : List Char
  path : List Char
  params : List Char
  query : List Char
  fragment : List Char
deriving DecidableEq, Repr

/-- Errors raised by the embedded code.  Hostname errors correspond to the
three `raise Exception(...)` sites of lines 113-128 of `__init__.py`;
`invalidIPv6` is the `ValueError` of `urlsplit`; the others are the
config/profile/construction errors of the facade. -/
inductive FarmError where
  | invalidScheme        -- "Not a valid scheme."
  | missingNetloc        -- "Invalid hostname. Must have netloc."
  | invalidHostname      -- "Hostname cannot include path and query parameters."
  | invalidIPv6          -- ValueError("Invalid IPv6 URL")
  | noHostname           -- "No hostname provided and could not be loaded from config."
  | duplicateProfile (name : String)  -- "Profile '...' already exists."
  | missingProfile (name : String)    -- "Profile '...' does not exist."
  | noActiveProfile      -- "No profile being used."
  | missingKey (key : String)         -- configparser NoOptionError
  | valueError           -- ValueError (bad boolean / bad float literal)
deriving DecidableEq, Repr

/-- The scheme-detection step of `urlsplit` (CPython 3.11.6):
`i = url.find(':')`; if `i > 0`, the first character is an ASCII letter and
every character before the colon is a scheme character, the scheme is the
lowercased part before the colon and the rest follows; otherwise the scheme
is empty and the url is unchanged. -/
def schemeSplit (url : List Char) : List Char × List Char :=
  match splitOnFirst ':' url with
  | none => ([], url)
  | some (a, rest) =>
    if a ≠ [] ∧ (a.headD ' ').isAlpha ∧ a.all schemeChar then
      (a.map Char.toLower, rest)
    else ([], url)

/-- `_splitnetloc(url, 2)` after the leading `//` has been dropped:
the domain part runs until the first `/`, `?` or `#`. -/
def splitNetloc (l : List Char) : List Char × List Char :=
  (l.takeWhile netlocChar, l.dropWhile netlocChar)

/-- The netloc step of `urlsplit`: when the remaining url starts with
`//`, split the domain part off with `_splitnetloc`. -/
def netlocSplit (u1 : List Char) : List Char × List Char :=
  match u1 with
  | '/' :: '/' :: rest => splitNetloc rest
  | _ => (([] : List Char), u1)

/-- The fragment step of `urlsplit`: `url.split('#', 1)` when `#` occurs. -/
def fragSplit (u2 : List Char) : List Char × List Char :=
  match splitOnFirst '#' u2 with
  | some (a, b) => (a, b)
  | none => (u2, ([] : List Char))

/-- The query step of `urlsplit`: `url.split('?', 1)` when `?` occurs. -/
def querySplit (u3 : List Char) : List Char × List Char :=
  match splitOnFirst '?' u3 with
  | some (a, b) => (a, b)
  | none => (u3, ([] : List Char))

/-- `urlsplit(url)` (CPython 3.11.6, `allow_fragments=True`, default scheme
`''`).  `_checknetloc` is the identity for ASCII netlocs and is not
modelled; theorems quantifying over arbitrary inputs assume ASCII. -/
def urlsplit (url : List Char) : Except FarmError SplitResult :=
  let url0 := url.filter urlSafeChar
  let sp := schemeSplit url0
  let nl := netlocSplit sp.2
  if (nl.1.contains '[' ∧ ¬nl.1.contains ']') ∨
     (nl.1.contains ']' ∧ ¬nl.1.contains '[') then
    .error .invalidIPv6
  else
    let fr := fragSplit nl.2
    let pq := querySplit fr.1
    .ok ⟨sp.1, nl.1, pq.1, pq.2, fr.2⟩

/-- `uses_params` of `urllib.parse`. -/
def usesParams : List (List Char) :=
  [[], "ftp".toList, "hdl".toList, "prospero".toList, "http".toList,
   "imap".toList, "https".toList, "shttp".toList, "rtsp".toList,
   "rtspu".toList, "sip".toList, "sips".toList, "mms".toList,
   "sftp".toList, "tel".toList]

/-- `uses_netloc` of `urllib.parse`. -/
def usesNetloc : List (List Char) :=
  [[], "ftp".toList, "http".toList, "gopher".toList, "nntp".toList,
   "telnet".toList, "imap".toList, "wais".toList, "file".toList,
   "mms".toList, "https".toList, "shttp".toList, "snews".toList,
   "prospero".toList, "rtsp".toList, "rtspu".toList, "rsync".toList,
   "svn".toList, "svn+ssh".toList, "sftp".toList, "nfs".toList,
   "git".toList, "git+ssh".toList, "ws".toList, "wss".toList]

/-- `_splitparams(url)`, called only when `;` occurs in the path: the params
are what follows the first `;` after the last `/` (or the first `;` at all
when there is no `/`). -/
def splitParams (url : List Char) : List Char × List Char :=
  if url.contains '/' then
    match splitOnLast '/' url with
    | some (a, b) =>
      match splitOnFirst ';' b with
      | some (b1, b2) => (a ++ '/' :: b1, b2)
      | none => (url, [])
    | none => (url, [])
  else
    match splitOnFirst ';' url with
    | some (a, b) => (a, b)
    | none => (url, [])

/-- `urlparse(url)` (CPython 3.11.6): `urlsplit` plus the params split when
the scheme uses params and the path contains `;`. -/
def urlparse (url : List Char) : Except FarmError ParseResult :=
  match urlsplit url with
  | .error e => .error e
  | .ok r =>
    if r.scheme ∈ usesParams ∧ r.path.contains ';' then
      let (p, ps) := splitParams r.path
      .ok ⟨r.scheme, r.netloc, p, ps, r.query, r.fragment⟩
    else
      .ok ⟨r.scheme, r.netloc, r.path, [], r.query, r.fragment⟩

/-- `urlunsplit` (CPython 3.11.6). -/
def urlunsplit (scheme netloc path query fragment : List Char) : List Char :=
  let url := path
  let url :=
    if netloc ≠ [] ∨ (scheme ≠ [] ∧ scheme ∈ usesNetloc ∧ url.take 2 ≠ ['/', '/']) then
      '/' :: '/' :: netloc ++ (if url ≠ [] ∧ url.take 1 ≠ ['/'] then '/' :: url else url)
    else url
  let url := if scheme ≠ [] then scheme ++ ':' :: url else url
  let url := if query ≠ [] then url ++ '?' :: query else url
  if fragment ≠ [] then url ++ '#' :: fragment else url

/-- `urlunparse` (CPython 3.11.6). -/
def urlunparse (p : ParseResult) : List Char :=
  let path := if p.params ≠ [] then p.path ++ ';' :: p.params else p.path
  urlunsplit p.scheme p.netloc path p.query p.fragment

/-! ## Hostname validation (lines 102-131 of `__init__.py`) -/

/-- `valid_schemes = ["http", "https"]`. -/
def validSchemes : List (List Char) := ["http".toList, "https".toList]

/-- Lines 109-111: when the parsed URL has no scheme, replace it by the
default scheme, `http` in development mode and `https` otherwise. -/
def injectScheme (development : Bool) (p : ParseResult) : ParseResult :=
  if p.scheme = [] then
    { p with scheme := if development then "http".toList else "https".toList }
  else p

/-- Lines 117-120: when no netloc was parsed but a path was, the path was
probably the host; move it into the netloc. -/
def moveNetloc (p : ParseResult) : ParseResult :=
  if p.netloc = [] ∧ p.path ≠ [] then { p with netloc := p.path, path := [] } else p

/-- Lines 102-131 of `farmOS.__init__`: parse the hostname, default the
scheme, validate the scheme, reinterpret a bare path as the netloc, require
a netloc, reject any remaining path/params/query, and reassemble. -/
def normalizeHostname (development : Bool) (hostname : List Char) :
    Except FarmError (List Char) :=
  match urlparse hostname with
  | .error e => .error e
  | .ok p0 =>
    let p1 := injectScheme development p0
    if p1.scheme ∉ validSchemes then .error .invalidScheme
    else
      let p2 := moveNetloc p1
      if p2.netloc = [] then .error .missingNetloc
      else if p2.path ≠ [] ∨ p2.params ≠ [] ∨ p2.query ≠ [] then .error .invalidHostname
      else .ok (urlunparse p2)

example : normalizeHostname false "example.com".toList = .ok "https://example.com".toList := by
  decide

example : normalizeHostname true "example.com".toList = .ok "http://example.com".toList := by
  decide

example : normalizeHostname false "ftp://example.com".toList = .error .invalidScheme := by
  decide

example : normalizeHostname false "https://example.com/path".toList = .error .invalidHostname := by
  decide

/-! ## Config store

Modelled from the spec: `ClientConfig` lives in `src/farmOS/config.py`,
which is not under `src/`; section 4.1 "Config Store" of the spec is the
authority.  A store is an ordered association list of named sections, each
an ordered association list of key/value pairs; a `DEFAULT` section
supplies values absent from a named section (read-through fallback on
`get`, never write-through). -/

abbrev ConfigStore := List (String × List (String × String))

/-- First-match association lookup (Python `dict` access). -/
def assocGet {α : Type} (l : List (String × α)) (k : String) : Option α :=
  match l with
  | [] => none
  | (k', v) :: rest => if k' = k then some v else assocGet rest k

/-- Association update-or-append (Python `dict` assignment, insertion order
preserved). -/
def assocSet {α : Type} (l : List (String × α)) (k : String) (v : α) :
    List (String × α) :=
  match l with
  | [] => [(k, v)]
  | (k', v') :: rest => if k' = k then (k, v) :: rest else (k', v') :: assocSet rest k v

/-- Modelled from the spec: `has_section(name)`. -/
def ConfigStore.has_section (cfg : ConfigStore) (name : String) : Bool :=
  (assocGet cfg name).isSome

/-- Modelled from the spec: `add_section(name)` appends an empty section
(the duplicate check lives in the caller, `create_profile`). -/
def ConfigStore.add_section (cfg : ConfigStore) (name : String) : ConfigStore :=
  cfg ++ [(name, [])]

/-- Raw lookup of a key in one section, with no `DEFAULT` fallback. -/
def sectLookup (cfg : ConfigStore) (sec key : String) : Option String :=
  (assocGet cfg sec).bind (fun kvs => assocGet kvs key)

/-- Modelled from the spec: `get(section, key)` — check the named section,
then fall back to the `DEFAULT` section. -/
def ConfigStore.get (cfg : ConfigStore) (sec key : String) : Option String :=
  match sectLookup cfg sec key with
  | some v => some v
  | none => sectLookup cfg "DEFAULT" key

/-- `config[section][key] = value`: update the section in place (the
sections written by the facade always exist; a missing section is appended
so that the operation is total). -/
def setKey (cfg : ConfigStore) (sec key v : String) : ConfigStore :=
  if (assocGet cfg sec).isSome then
    cfg.map (fun p => if p.1 = sec then (p.1, assocSet p.2 key v) else p)
  else cfg ++ [(sec, [(key, v)])]

/-- Modelled from the spec: the `development` and
`oauthlib_insecure_transport` keys are "boolean-parseable"; the recognized
spellings are configparser's `BOOLEAN_STATES`, case-insensitively. -/
def parseBool (s : String) : Except FarmError Bool :=
  let l := s.toList.map Char.toLower
  if l = "1".toList ∨ l = "yes".toList ∨ l = "true".toList ∨ l = "on".toList then .ok true
  else if l = "0".toList ∨ l = "no".toList ∨ l = "false".toList ∨ l = "off".toList then .ok false
  else .error .valueError

/-- Modelled from the spec: `getboolean(section, key, fallback)` — the
fallback applies only when the key is absent (with `DEFAULT` read-through);
a present but unparseable value is a `ValueError`. -/
def cfgGetboolean (cfg : ConfigStore) (sec key : String) (fallback : Bool) :
    Except FarmError Bool :=
  match cfg.get sec key with
  | none => .ok fallback
  | some v => parseBool v

/-! ## Token state -/

/-- A token field value as Python holds it: a number (`int`/`float`,
modelled exactly as `ℚ`) or a string (as read back from a config file). -/
inductive TokNum where
  | num (q : ℚ)
  | str (s : String)
deriving DecidableEq, Repr

/-- An OAuth token mapping with its recognized keys; `none` is an absent
key. -/
structure Token where
  access_token : Option String := none
  refresh_token : Option String := none
  token_type : Option String := none
  scope : Option String := none
  expires_in : Option TokNum := none
  expires_at : Option TokNum := none
deriving DecidableEq, Repr

/-- Value of a list of decimal digit characters. -/
def digitsVal (l : List Char) : Nat :=
  l.foldl (fun acc c => acc * 10 + (c.toNat - 48)) 0

/-- Python `float(s)` on the decimal literals the token code produces:
optional sign, digits, optional fractional part (exact value as `ℚ`;
`inf`/`nan`/exponent forms and double rounding are outside the model). -/
def pyFloatOfString (s : String) : Option ℚ :=
  let l := s.toList
  let (sign, l) : ℚ × List Char :=
    match l with
    | '-' :: r => (-1, r)
    | '+' :: r => (1, r)
    | r => (1, r)
  match splitOnFirst '.' l with
  | none =>
    if l ≠ [] ∧ l.all Char.isDigit then some (sign * digitsVal l) else none
  | some (a, b) =>
    if (a ≠ [] ∨ b ≠ []) ∧ a.all Char.isDigit ∧ b.all Char.isDigit then
      some (sign * ((digitsVal a : ℚ) + (digitsVal b : ℚ) / ((10 : ℚ) ^ b.length)))
    else none

/-- `float()` applied to a token field (line 178 of `__init__.py`). -/
def TokNum.toFloat : TokNum → Option ℚ
  | .num q => some q
  | .str s => pyFloatOfString s

/-- Fractional decimal digits of `r / d` (fuel-bounded; exact whenever the
expansion terminates, which holds for every binary float). -/
def decDigits (fuel r d : Nat) : List Char :=
  match fuel with
  | 0 => []
  | fuel' + 1 =>
    if r = 0 then []
    else Char.ofNat (48 + r * 10 / d) :: decDigits fuel' (r * 10 % d) d

/-- Python `str()` on a numeric token field: sign, integer part and, when
the value is not an integer, a decimal fractional part. -/
def ratPyStr (q : ℚ) : String :=
  let sgn := if q < 0 then "-" else ""
  let n := q.num.natAbs
  let d := q.den
  let frac := decDigits 1100 (n % d) d
  if frac = [] then sgn ++ toString (n / d)
  else sgn ++ toString (n / d) ++ "." ++ String.mk frac

/-- `str(token[...])` as `save_token` applies it (identity on strings). -/
def TokNum.pyStr : TokNum → String
  | .num q => ratPyStr q
  | .str s => s

/-- Lines 174-188 of `__init__.py`: when the token has an `expires_at`,
convert it with `float`, set `expires_in` to the seconds until expiration
(`expires_at - now`, negative values passed through) and drop `expires_at`;
otherwise the token is unchanged. -/
def normalizeTokenExpiry (now : ℚ) (token : Token) : Except FarmError Token :=
  match token.expires_at with
  | some v =>
    match v.toFloat with
    | some expiration_time =>
      .ok { token with expires_in := some (.num (expiration_time - now)),
                       expires_at := none }
    | none => .error .valueError
  | none => .ok token

/-! ## The farmOS facade -/

/-- Modelled from the spec: `OAuthSession` (`src/farmOS/session.py` is not
under `src/`) — construction records the base URL (the normalized
hostname), the client credentials, the starting token and the token URL. -/
structure OAuthSession where
  hostname : List Char
  client_id : Option String
  client_secret : Option String
  scope : Option String
  token : Option Token
  token_url : String
deriving DecidableEq, Repr

/-- The facade's state: the in-memory config store, the optional config
file path, the active profile (`self.profile`, `none` when no profile is
in use) and its name, the development flag and the session. -/
structure FarmState where
  config : ConfigStore
  config_file : Option String
  profile : Option String
  profile_name : String
  development : Bool
  session : Option OAuthSession
deriving DecidableEq, Repr

/-- `_profile_exists(profile_name)` (the non-string `TypeError` branch is
unrepresentable here). -/
def _profile_exists (st : FarmState) (name : String) : Bool :=
  st.config.has_section name

/-- `create_profile(profile_name)`: add a section, or fail with a
duplicate-profile error when it already exists (the store is returned
unchanged only inside an `ok`, so a failing call mutates nothing). -/
def create_profile (st : FarmState) (name : String) : Except FarmError FarmState :=
  if ¬ _profile_exists st name then
    .ok { st with config := st.config.add_section name }
  else .error (.duplicateProfile name)

/-- `_get_profile_config(profile_name)`. -/
def _get_profile_config (st : FarmState) (name : String) :
    Option (List (String × String)) :=
  if _profile_exists st name then assocGet st.config name else none

/-- `use_profile(profile_name, create_profile=False)`. -/
def use_profile (st : FarmState) (name : String) (create : Bool := false) :
    Except FarmError FarmState :=
  match _get_profile_config st name with
  | none =>
    if create then
      match create_profile st name with
      | .ok st1 => .ok { st1 with profile := some name, profile_name := name }
      | .error e => .error e
    else .error (.missingProfile name)
  | some _ => .ok { st with profile := some name, profile_name := name }

/-- `has_profile(profile_name=None)`. -/
def has_profile (st : FarmState) (name : Option String := none) : Bool :=
  match name with
  | some n => _profile_exists st n
  | none => st.profile.isSome

/-- `get_profile_name()`. -/
def get_profile_name (st : FarmState) : Except FarmError String :=
  if has_profile st then .ok st.profile_name else .error .noActiveProfile

/-- The five conditional writes of `save_token` (lines 243-262). -/
def writeTokenFields (cfg : ConfigStore) (sec : String) (token : Token) : ConfigStore :=
  let c := match token.access_token with
    | some v => setKey cfg sec "access_token" v
    | none => cfg
  let c := match token.expires_in with
    | some v => setKey c sec "expires_in" v.pyStr
    | none => c
  let c := match token.token_type with
    | some v => setKey c sec "token_type" v
    | none => c
  let c := match token.refresh_token with
    | some v => setKey c sec "refresh_token" v
    | none => c
  match token.expires_at with
  | some v => setKey c sec "expires_at" v.pyStr
  | none => c

/-- `save_token(token)` (lines 226-267): write the recognized token fields
into the active profile's section only when a profile is active, then
persist the store to the config file only when a file path was configured.
The second component is the performed write: the target path and the store
snapshot serialized to it (`none` when nothing is persisted). -/
def save_token (st : FarmState) (token : Token) :
    FarmState × Option (String × ConfigStore) :=
  let st1 :=
    if has_profile st then
      { st with config := writeTokenFields st.config st.profile_name token }
    else st
  match st.config_file with
  | none => (st1, none)
  | some path => (st1, some (path, st1.config))

/-- The raw HTTP response `http_request` hands back.  Modelled from the
spec: `OAuthSession.http_request` (`src/farmOS/session.py` is not under
`src/`) returns the raw response, status plus body, without interpreting
it; `body` stands for the parsed JSON payload `response.json()` yields. -/
structure HttpResponse where
  status_code : Nat
  body : String
deriving DecidableEq, Repr

/-- Result of `info()`: the parsed body, or the empty list `[]`. -/
inductive InfoResult where
  | json (body : String)
  | emptyList
deriving DecidableEq, Repr

/-- `info(path='farm.json')` (lines 217-224), applied to the response the
session produced for `path`: the parsed body on HTTP 200, otherwise `[]`. -/
def info (response : HttpResponse) : InfoResult :=
  if response.status_code = 200 then .json response.body else .emptyList

/-! ## Facade construction (`farmOS.__init__`) -/

/-- The constructor's keyword arguments (defaults as in the source; the
non-string `config_file` and non-`ClientConfig` `config` type errors are
unrepresentable here). -/
structure InitArgs where
  hostname : Option (List Char) := none
  client_id : Option String := some "farm"
  client_secret : Option String := none
  scope : Option String := some "user_access"
  token : Option Token := none
  config_file : Option String := none
  profile_name : Option String := none
deriving DecidableEq, Repr

/-- The facade state right after the config files were read (lines 40-70):
no profile in use, profile name `DEFAULT`, no session yet. -/
def initState (cfg : ConfigStore) (config_file : Option String) : FarmState :=
  { config := cfg, config_file := config_file, profile := none,
    profile_name := "DEFAULT", development := false, session := none }

/-- Lines 69-73: select the profile when a name was supplied, creating it
if needed. -/
def profilePhase (st : FarmState) (profile_name : Option String) :
    Except FarmError FarmState :=
  match profile_name with
  | some name => use_profile st name true
  | none => .ok st

/-- Lines 154-160: persist the OAuth client credentials into the active
profile's section. -/
def saveClientCreds (cfg : ConfigStore) (sec : String) (args : InitArgs) : ConfigStore :=
  let c := match args.client_id with
    | some v => setKey cfg sec "oauth_client_id" v
    | none => cfg
  let c := match args.client_secret with
    | some v => setKey c sec "oauth_client_secret" v
    | none => c
  match args.scope with
  | some v => setKey c sec "oauth_scope" v
  | none => c

/-- Lines 162-172: rebuild a token from whatever subset of `access_token`,
`refresh_token` and `expires_at` the profile's config supplies. -/
def loadProfileToken (cfg : ConfigStore) (pname : String) : Token :=
  let t : Token := {}
  let t := match cfg.get pname "access_token" with
    | some v => { t with access_token := some v }
    | none => t
  let t := match cfg.get pname "refresh_token" with
    | some v => { t with refresh_token := some v }
    | none => t
  match cfg.get pname "expires_at" with
  | some v => { t with expires_at := some (.str v) }
  | none => t

/-- Lines 100-211 of `farmOS.__init__`: hostname validation, token-url
lookup, profile token reconstruction, expiry normalization and session
construction.  `now` is `datetime.now()` as epoch seconds.  Process-wide
side effects (the `OAUTHLIB_INSECURE_TRANSPORT` environment variable,
lines 88-91) and the dead `has_token` computation (lines 140-145) leave no
facade state and are not modelled. -/
def farmInitTail (args : InitArgs) (st1 : FarmState) (development : Bool) (now : ℚ) :
    Except FarmError FarmState :=
  let st2 := { st1 with development := development }
  match args.hostname with
  | none => .error .noHostname
  | some rawHostname =>
  match normalizeHostname development rawHostname with
  | .error e => .error e
  | .ok hostname =>
  let st3 := { st2 with
    config := setKey st2.config st2.profile_name "hostname" (String.mk hostname) }
  match st3.config.get st3.profile_name "oauth_token_url" with
  | none => .error (.missingKey "oauth_token_url")
  | some token_url =>
  let ct : ConfigStore × Option Token :=
    match args.token, st3.profile, args.profile_name with
    | none, some _, some pname =>
      -- lines 151-172: `token is None and self.has_profile()`; a profile is
      -- active only when a profile name was passed, so indexing
      -- `config[profile_name]` with the argument is well-defined.
      let c := saveClientCreds st3.config st3.profile_name args
      (c, some (loadProfileToken c pname))
    | t, _, _ => (st3.config, t)
  match (match ct.2 with
         | some t => (normalizeTokenExpiry now t).map some
         | none => .ok (none : Option Token)) with
  | .error e => .error e
  | .ok token2 =>
  let session : OAuthSession :=
    { hostname := hostname, client_id := args.client_id,
      client_secret := args.client_secret, scope := args.scope,
      token := token2, token_url := token_url }
  .ok { st3 with config := ct.1, session := some session }

/-- `farmOS.__init__`, phase structure: read config (outside the model),
select the profile, read the two transport booleans, then run the
hostname/token/session tail. -/
def farmInit (args : InitArgs) (cfg : ConfigStore) (now : ℚ) :
    Except FarmError FarmState :=
  let st0 := initState cfg args.config_file
  match profilePhase st0 args.profile_name with
  | .error e => .error e
  | .ok st1 =>
  match cfgGetboolean st1.config st1.profile_name "development" false with
  | .error e => .error e
  | .ok development =>
  match cfgGetboolean st1.config st1.profile_name "oauthlib_insecure_transport" false with
  | .error e => .error e
  | .ok _oauth_insecure_transport => farmInitTail args st1 development now

/-- The session base URL a construction result exposes (`none` on a failed
construction). -/
def sessionHostname (r : Except FarmError FarmState) : Option (List Char) :=
  match r with
  | .ok st =>
    match st.session with
    | some s => some s.hostname
    | none => none
  | .error _ => none

/-! ## Association-list and store lemmas -/

theorem assocGet_append {α : Type} (l l' : List (String × α)) (k : String) :
    assocGet (l ++ l') k =
      match assocGet l k with
      | some v => some v
      | none => assocGet l' k := by
  induction l with
  | nil => simp [assocGet]
  | cons h t ih =>
    obtain ⟨k', v'⟩ := h
    by_cases hk : k' = k <;> simp [assocGet, hk, ih]

theorem assocGet_assocSet_self {α : Type} (l : List (String × α)) (k : String) (v : α) :
    assocGet (assocSet l k v) k = some v := by
  induction l with
  | nil => simp [assocSet, assocGet]
  | cons h t ih =>
    obtain ⟨k', v'⟩ := h
    by_cases hk : k' = k <;> simp [assocSet, assocGet, hk, ih]

theorem assocGet_assocSet_ne {α : Type} (l : List (String × α)) (k k' : String) (v : α)
    (h : k' ≠ k) : assocGet (assocSet l k v) k' = assocGet l k' := by
  induction l with
  | nil => simp [assocSet, assocGet, Ne.symm h]
  | cons hd t ih =>
    obtain ⟨k0, v0⟩ := hd
    by_cases hk : k0 = k
    · subst hk
      simp [assocSet, assocGet, Ne.symm h]
    · simp [assocSet, assocGet, hk, ih]

theorem assocGet_map_section {α : Type} (cfg : List (String × α)) (sec : String)
    (g : α → α) (t : String) :
    assocGet (cfg.map (fun p => if p.1 = sec then (p.1, g p.2) else p)) t =
      if t = sec then (assocGet cfg sec).map g else assocGet cfg t := by
  induction cfg with
  | nil => simp [assocGet]
  | cons hd tl ih =>
    obtain ⟨k0, v0⟩ := hd
    have hmap : (if (k0, v0).1 = sec then ((k0, v0).1, g (k0, v0).2) else (k0, v0))
        = if k0 = sec then (k0, g v0) else (k0, v0) := by
      by_cases h : k0 = sec <;> simp [h]
    rw [List.map_cons, hmap]
    by_cases h2 : k0 = sec
    · rw [if_pos h2]
      subst h2
      by_cases h3 : k0 = t
      · subst h3
        simp [assocGet]
      · have ht : ¬ t = k0 := fun hh => h3 hh.symm
        simp [assocGet, h3, ih, ht]
    · rw [if_neg h2]
      by_cases h3 : k0 = t
      · subst h3
        simp [assocGet, h2]
      · simp [assocGet, h2, h3, ih]

theorem sectLookup_setKey_self (cfg : ConfigStore) (sec k v : String) :
    sectLookup (setKey cfg sec k v) sec k = some v := by
  unfold setKey sectLookup
  by_cases h : (assocGet cfg sec).isSome
  · rw [if_pos h, assocGet_map_section cfg sec (fun kvs => assocSet kvs k v) sec, if_pos rfl]
    obtain ⟨kvs, hkvs⟩ := Option.isSome_iff_exists.mp h
    simp [hkvs, assocGet_assocSet_self]
  · rw [if_neg h, assocGet_append]
    rw [Option.not_isSome_iff_eq_none] at h
    simp [h, assocGet, assocGet_assocSet_self]

theorem sectLookup_setKey_ne (cfg : ConfigStore) (sec t k k' v : String) (h : k' ≠ k) :
    sectLookup (setKey cfg sec k v) t k' = sectLookup cfg t k' := by
  unfold setKey sectLookup
  by_cases hs : (assocGet cfg sec).isSome
  · rw [if_pos hs, assocGet_map_section cfg sec (fun kvs => assocSet kvs k v) t]
    by_cases ht : t = sec
    · subst ht
      obtain ⟨kvs, hkvs⟩ := Option.isSome_iff_exists.mp hs
      simp [hkvs, assocGet_assocSet_ne _ _ _ _ h]
    · simp [ht]
  · rw [if_neg hs, assocGet_append]
    rw [Option.not_isSome_iff_eq_none] at hs
    by_cases ht : t = sec
    · subst ht
      simp [hs, assocGet, Ne.symm h]
    · cases hg : assocGet cfg t <;> simp [assocGet, Ne.symm h]

theorem get_setKey_ne (cfg : ConfigStore) (sec t k k' v : String) (h : k' ≠ k) :
    (setKey cfg sec k v).get t k' = cfg.get t k' := by
  unfold ConfigStore.get
  rw [sectLookup_setKey_ne _ _ _ _ _ _ h, sectLookup_setKey_ne _ _ _ _ _ _ h]

/-! ## Claim C2 — token expiry normalization -/

/-- C2: a token carrying `expires_at` with value `T` (numeric or
string-encoded) is normalized, at construction time, to a token whose
`expires_in` is exactly `T - now` (negative values passed through) and
which no longer has an `expires_at` key; a token without `expires_at` is
unchanged; in particular `{expires_at: T}` with `now = T - 100` yields
`expires_in = 100`. -/
theorem c2_token_normalization :
    (∀ (now : ℚ) (token : Token) (v : TokNum) (T : ℚ),
        token.expires_at = some v → v.toFloat = some T →
        normalizeTokenExpiry now token =
          .ok { token with expires_in := some (.num (T - now)), expires_at := none }) ∧
    (∀ (now : ℚ) (token : Token), token.expires_at = none →
        normalizeTokenExpiry now token = .ok token) ∧
    (∀ (T : ℚ) (token : Token), token.expires_at = some (.num T) →
        normalizeTokenExpiry (T - 100) token =
          .ok { token with expires_in := some (.num 100), expires_at := none }) := by
  refine ⟨?_, ?_, ?_⟩
  · intro now token v T hat hfl
    simp [normalizeTokenExpiry, hat, hfl]
  · intro now token hat
    simp [normalizeTokenExpiry, hat]
  · intro T token hat
    simp [normalizeTokenExpiry, hat, TokNum.toFloat, sub_sub_cancel]

/-- Witness for C2 at the concrete token `{expires_at: 200}` and
`now = 100`. -/
theorem c2_token_normalization_witness :
    normalizeTokenExpiry 100 { expires_at := some (.num 200) } =
      .ok { expires_in := some (.num (200 - 100)), expires_at := none } :=
  c2_token_normalization.1 100 { expires_at := some (.num 200) } (.num 200) 200 rfl rfl

/-! ## Claim C5 — `info` -/

/-- C5: `info` returns the parsed body exactly on HTTP 200 and otherwise
returns the empty list rather than raising. -/
theorem c5_info_status :
    ∀ response : HttpResponse,
      (response.status_code = 200 → info response = .json response.body) ∧
      (response.status_code ≠ 200 → info response = .emptyList) := by
  intro response
  constructor
  · intro h
    simp [info, h]
  · intro h
    simp [info, h]

/-- Witness for C5: a mocked HTTP 404 response yields the empty result. -/
theorem c5_info_status_witness :
    info { status_code := 404, body := "not found" } = .emptyList :=
  (c5_info_status { status_code := 404, body := "not found" }).2 (by decide)

/-! ## Claim C7 — `create_profile` -/

/-- C7: creating a profile whose section already exists raises a
duplicate-profile error (and, the call being pure and returning only the
error, mutates nothing — in particular a second creation attempt leaves
the first profile's data untouched); creating a fresh name appends its
section and succeeds. -/
theorem c7_create_profile :
    ∀ (st : FarmState) (name : String),
      (_profile_exists st name = false →
        create_profile st name = .ok { st with config := st.config.add_section name }) ∧
      (_profile_exists st name = true →
        create_profile st name = .error (.duplicateProfile name)) ∧
      (∀ st1, create_profile st name = .ok st1 →
        assocGet st1.config name = some [] ∧
        create_profile st1 name = .error (.duplicateProfile name)) := by
  intro st name
  refine ⟨?_, ?_, ?_⟩
  · intro h
    simp [create_profile, h]
  · intro h
    simp [create_profile, h]
  · intro st1 h
    unfold create_profile at h
    by_cases hex : _profile_exists st name
    · simp [hex] at h
    · simp [hex] at h
      have hget : assocGet st1.config name = some [] := by
        rw [← h]
        simp only [ConfigStore.add_section, assocGet_append]
        cases hg : assocGet st.config name with
        | none => simp [assocGet]
        | some v =>
          exfalso
          exact hex (by simp [_profile_exists, ConfigStore.has_section, hg])
      refine ⟨hget, ?_⟩
      have : _profile_exists st1 name = true := by
        simp [_profile_exists, ConfigStore.has_section, hget]
      simp [create_profile, this]

/-- Witness for C7: on a store with only a `DEFAULT` section, creating
`alice` succeeds and appends her empty section, and creating `alice` again
fails with the duplicate-profile error. -/
theorem c7_create_profile_witness :
    create_profile (initState [("DEFAULT", [])] none) "alice" =
      .ok { initState [("DEFAULT", [])] none with
            config := ConfigStore.add_section [("DEFAULT", [])] "alice" } ∧
    create_profile { initState [("DEFAULT", [])] none with
            config := ConfigStore.add_section [("DEFAULT", [])] "alice" } "alice" =
      .error (.duplicateProfile "alice") := by
  have h1 := (c7_create_profile (initState [("DEFAULT", [])] none) "alice").1 (by decide)
  have h3 := (c7_create_profile (initState [("DEFAULT", [])] none) "alice").2.2 _ h1
  exact ⟨h1, h3.2⟩

/-! ## Claim C8 — `use_profile` / `get_profile_name` -/

/-- C8: `use_profile(name, create_profile=True)` on a store without that
section creates it and makes it the active profile, after which
`get_profile_name()` returns the name; with `create_profile=False` it
raises a missing-profile error; and `get_profile_name()` raises a
no-active-profile error whenever no profile is active. -/
theorem c8_use_profile :
    (∀ (st : FarmState) (name : String),
      st.config.has_section name = false →
        (∃ st1, use_profile st name true = .ok st1 ∧
          st1.profile_name = name ∧ st1.profile = some name ∧
          st1.config.has_section name = true ∧
          get_profile_name st1 = .ok name) ∧
        use_profile st name false = .error (.missingProfile name)) ∧
    (∀ st : FarmState, st.profile = none →
        get_profile_name st = .error .noActiveProfile) := by
  constructor
  · intro st name h
    have hex : _profile_exists st name = false := h
    have hpc : _get_profile_config st name = none := by
      simp [_get_profile_config, hex]
    constructor
    · refine ⟨{ st with
                config := ConfigStore.add_section st.config name
                profile := some name
                profile_name := name }, ?_, rfl, rfl, ?_, ?_⟩
      · unfold use_profile
        rw [hpc]
        simp [create_profile, hex]
      · simp [ConfigStore.has_section, ConfigStore.add_section, assocGet_append]
        cases hg : assocGet st.config name with
        | none => simp [assocGet]
        | some v => simp
      · simp [get_profile_name, has_profile]
    · unfold use_profile
      rw [hpc]
      simp
  · intro st h
    simp [get_profile_name, has_profile, h]

/-! ## Claim C6 — `save_token` -/

theorem writeTokenFields_access (cfg : ConfigStore) (sec : String) (token : Token) :
    sectLookup (writeTokenFields cfg sec token) sec "access_token" =
      match token.access_token with
      | some v => some v
      | none => sectLookup cfg sec "access_token" := by
  unfold writeTokenFields
  cases token.expires_at <;> cases token.refresh_token <;> cases token.token_type <;>
    cases token.expires_in <;> cases token.access_token <;>
    simp [sectLookup_setKey_self, sectLookup_setKey_ne]

theorem writeTokenFields_expires_in (cfg : ConfigStore) (sec : String) (token : Token) :
    sectLookup (writeTokenFields cfg sec token) sec "expires_in" =
      match token.expires_in with
      | some v => some v.pyStr
      | none => sectLookup cfg sec "expires_in" := by
  unfold writeTokenFields
  cases token.expires_at <;> cases token.refresh_token <;> cases token.token_type <;>
    cases token.expires_in <;> cases token.access_token <;>
    simp [sectLookup_setKey_self, sectLookup_setKey_ne]

theorem writeTokenFields_token_type (cfg : ConfigStore) (sec : String) (token : Token) :
    sectLookup (writeTokenFields cfg sec token) sec "token_type" =
      match token.token_type with
      | some v => some v
      | none => sectLookup cfg sec "token_type" := by
  unfold writeTokenFields
  cases token.expires_at <;> cases token.refresh_token <;> cases token.token_type <;>
    cases token.expires_in <;> cases token.access_token <;>
    simp [sectLookup_setKey_self, sectLookup_setKey_ne]

theorem writeTokenFields_refresh (cfg : ConfigStore) (sec : String) (token : Token) :
    sectLookup (writeTokenFields cfg sec token) sec "refresh_token" =
      match token.refresh_token with
      | some v => some v
      | none => sectLookup cfg sec "refresh_token" := by
  unfold writeTokenFields
  cases token.expires_at <;> cases token.refresh_token <;> cases token.token_type <;>
    cases token.expires_in <;> cases token.access_token <;>
    simp [sectLookup_setKey_self, sectLookup_setKey_ne]

theorem writeTokenFields_expires_at (cfg : ConfigStore) (sec : String) (token : Token) :
    sectLookup (writeTokenFields cfg sec token) sec "expires_at" =
      match token.expires_at with
      | some v => some v.pyStr
      | none => sectLookup cfg sec "expires_at" := by
  unfold writeTokenFields
  cases token.expires_at <;> cases token.refresh_token <;> cases token.token_type <;>
    cases token.expires_in <;> cases token.access_token <;>
    simp [sectLookup_setKey_self, sectLookup_setKey_ne]

/-- C6: `save_token` writes every recognized token field that is present
into the active profile's section exactly when a profile is active (absent
fields leave the stored values unchanged, and with no active profile the
facade state is untouched), and persists the store to the config file
exactly when a file path was configured — in particular, with no active
profile but a configured path, the store is persisted as-is. -/
theorem c6_save_token :
    ∀ (st : FarmState) (token : Token),
      (st.profile = none → (save_token st token).1 = st) ∧
      ((save_token st token).2 =
        Option.map (fun path => (path, (save_token st token).1.config)) st.config_file) ∧
      (st.profile.isSome = true →
        (save_token st token).1.config = writeTokenFields st.config st.profile_name token ∧
        sectLookup (save_token st token).1.config st.profile_name "access_token" =
          (match token.access_token with
           | some v => some v
           | none => sectLookup st.config st.profile_name "access_token") ∧
        sectLookup (save_token st token).1.config st.profile_name "expires_in" =
          (match token.expires_in with
           | some v => some v.pyStr
           | none => sectLookup st.config st.profile_name "expires_in") ∧
        sectLookup (save_token st token).1.config st.profile_name "token_type" =
          (match token.token_type with
           | some v => some v
           | none => sectLookup st.config st.profile_name "token_type") ∧
        sectLookup (save_token st token).1.config st.profile_name "refresh_token" =
          (match token.refresh_token with
           | some v => some v
           | none => sectLookup st.config st.profile_name "refresh_token") ∧
        sectLookup (save_token st token).1.config st.profile_name "expires_at" =
          (match token.expires_at with
           | some v => some v.pyStr
           | none => sectLookup st.config st.profile_name "expires_at")) := by
  intro st token
  refine ⟨?_, ?_, ?_⟩
  · intro h
    unfold save_token
    simp [has_profile, h]
    cases st.config_file <;> simp
  · unfold save_token
    cases st.config_file <;> simp
  · intro h
    have hcfg : (save_token st token).1.config =
        writeTokenFields st.config st.profile_name token := by
      unfold save_token
      simp [has_profile, h]
      cases st.config_file <;> simp
    rw [hcfg]
    exact ⟨rfl, writeTokenFields_access _ _ _, writeTokenFields_expires_in _ _ _,
      writeTokenFields_token_type _ _ _, writeTokenFields_refresh _ _ _,
      writeTokenFields_expires_at _ _ _⟩

/-- The facade state used in the C6 witness: profile `alice` active,
config file configured. -/
def c6State : FarmState :=
  { config := [("DEFAULT", []), ("alice", [("hostname", "https://example.com")])]
    config_file := some "farm.cfg"
    profile := some "alice"
    profile_name := "alice"
    development := false
    session := none }

/-- The token used in the C6 witness. -/
def c6Token : Token :=
  { access_token := some "tok123", refresh_token := some "ref456",
    expires_in := some (.str "3600") }

/-- Witness for C6: with an active profile and a configured file path the
present fields are written into the profile section, the absent
`token_type` stays absent, and the store is persisted to the path. -/
theorem c6_save_token_witness :
    sectLookup (save_token c6State c6Token).1.config c6State.profile_name "access_token" =
      some "tok123" ∧
    sectLookup (save_token c6State c6Token).1.config c6State.profile_name "expires_in" =
      some "3600" ∧
    sectLookup (save_token c6State c6Token).1.config c6State.profile_name "token_type" = none ∧
    (save_token c6State c6Token).2 =
      some ("farm.cfg", (save_token c6State c6Token).1.config) := by
  have h := (c6_save_token c6State c6Token).2.2 (by decide)
  refine ⟨?_, ?_, ?_, ?_⟩
  · rw [h.2.1]
    decide
  · rw [h.2.2.1]
    decide
  · rw [h.2.2.2.1]
    decide
  · rw [(c6_save_token c6State c6Token).2.1]
    decide

/-! ## Error-classification lemmas -/

theorem urlsplit_error (url : List Char) (e : FarmError) (h : urlsplit url = .error e) :
    e = .invalidIPv6 := by
  unfold urlsplit at h
  simp only [] at h
  split at h
  · injection h with h'
    exact h'.symm
  · simp at h

theorem urlparse_error (url : List Char) (e : FarmError) (h : urlparse url = .error e) :
    e = .invalidIPv6 := by
  unfold urlparse at h
  split at h
  · rename_i e' he
    injection h with h'
    exact h' ▸ urlsplit_error _ _ he
  · split at h <;> simp_all

theorem normalizeHostname_error (development : Bool) (s : List Char) (e : FarmError)
    (h : normalizeHostname development s = .error e) :
    e = .invalidScheme ∨ e = .missingNetloc ∨ e = .invalidHostname ∨ e = .invalidIPv6 := by
  unfold normalizeHostname at h
  split at h
  · rename_i e' he
    injection h with h'
    exact .inr (.inr (.inr (h' ▸ urlparse_error _ _ he)))
  · simp only [] at h
    split at h
    · injection h with h'
      exact .inl h'.symm
    · split at h
      · injection h with h'
        exact .inr (.inl h'.symm)
      · split at h
        · injection h with h'
          exact .inr (.inr (.inl h'.symm))
        · simp at h

theorem normalizeTokenExpiry_error (now : ℚ) (token : Token) (e : FarmError)
    (h : normalizeTokenExpiry now token = .error e) : e = .valueError := by
  unfold normalizeTokenExpiry at h
  repeat split at h
  all_goals simp_all

/-! ## Claim C3 — hostname availability at construction -/

/-- The configuration used in the C3 counterexample: the active profile
`alice` carries a perfectly usable hostname (and a token URL is
available). -/
def c3Cfg : ConfigStore :=
  [("DEFAULT", [("oauth_token_url", "https://example.com/oauth2/token")]),
   ("alice", [("hostname", "https://example.com")])]

/-- Counterexample to C3 as stated: with no `hostname` argument but an
active profile whose config supplies `hostname`, construction still fails
with the no-hostname configuration error — the config-derived hostname is
never consulted (lines 102 and 137-138 test only the argument). -/
theorem c3_counterexample :
    farmInit { hostname := none, profile_name := some "alice" } c3Cfg 0 =
      .error .noHostname := by
  decide

/-- C3 (amended): provided profile selection and the two boolean reads
succeed, construction fails with the no-hostname configuration error
exactly when the `hostname` argument is absent — a hostname stored in the
loaded config/profile is never consulted. -/
theorem c3_no_hostname :
    ∀ (args : InitArgs) (cfg : ConfigStore) (now : ℚ) (st1 : FarmState) (dev ins : Bool),
      profilePhase (initState cfg args.config_file) args.profile_name = .ok st1 →
      cfgGetboolean st1.config st1.profile_name "development" false = .ok dev →
      cfgGetboolean st1.config st1.profile_name "oauthlib_insecure_transport" false = .ok ins →
      (farmInit args cfg now = .error .noHostname ↔ args.hostname = none) := by
  intro args cfg now st1 dev ins h1 h2 h3
  have hfi : farmInit args cfg now = farmInitTail args st1 dev now := by
    unfold farmInit
    simp only [h1, h2, h3]
  rw [hfi]
  constructor
  · intro h
    by_contra hne
    obtain ⟨rawHostname, hh⟩ := Option.ne_none_iff_exists'.mp hne
    unfold farmInitTail at h
    simp only [hh] at h
    cases hnh : normalizeHostname dev rawHostname with
    | error e =>
      simp only [hnh] at h
      injection h with h'
      rcases normalizeHostname_error dev rawHostname e hnh with h4 | h4 | h4 | h4 <;>
        rw [h'] at h4 <;> exact absurd h4 (by decide)
    | ok hostname =>
      simp only [hnh] at h
      cases hg : ConfigStore.get
          (setKey st1.config st1.profile_name "hostname" (String.mk hostname))
          st1.profile_name "oauth_token_url" with
      | none =>
        simp only [hg] at h
        exact absurd h (by decide)
      | some token_url =>
        simp only [hg] at h
        split at h
        · rename_i e' heq
          injection h with h'
          subst h'
          split at heq
          · rename_i t hct
            cases hte : normalizeTokenExpiry now t with
            | error e2 =>
              simp only [hte, Except.map] at heq
              injection heq with h2
              have := normalizeTokenExpiry_error now t _ hte
              rw [h2] at this
              exact absurd this (by decide)
            | ok t2 => simp [hte, Except.map] at heq
          · simp at heq
        · simp at h
  · intro h
    unfold farmInitTail
    rw [h]

/-- Witness for C3 (amended): a fresh default store and no hostname
argument yield exactly the no-hostname error. -/
theorem c3_no_hostname_witness :
    farmInit { hostname := none } [("DEFAULT", [])] 0 = .error .noHostname :=
  (c3_no_hostname { hostname := none } [("DEFAULT", [])] 0
    (initState [("DEFAULT", [])] none) false false rfl rfl rfl).mpr rfl

/-! ## Claim C10 — `oauth_token_url` as construction precondition -/

/-- C10: when neither the active profile's section nor `DEFAULT` defines
`oauth_token_url`, construction fails with the missing-key error even
though a valid hostname was supplied (line 148 performs the lookup with no
fallback). -/
theorem c10_missing_token_url :
    ∀ (args : InitArgs) (cfg : ConfigStore) (now : ℚ) (st1 : FarmState)
      (dev ins : Bool) (rawHostname hostname : List Char),
      profilePhase (initState cfg args.config_file) args.profile_name = .ok st1 →
      cfgGetboolean st1.config st1.profile_name "development" false = .ok dev →
      cfgGetboolean st1.config st1.profile_name "oauthlib_insecure_transport" false = .ok ins →
      args.hostname = some rawHostname →
      normalizeHostname dev rawHostname = .ok hostname →
      sectLookup st1.config st1.profile_name "oauth_token_url" = none →
      sectLookup st1.config "DEFAULT" "oauth_token_url" = none →
      farmInit args cfg now = .error (.missingKey "oauth_token_url") := by
  intro args cfg now st1 dev ins rawHostname hostname h1 h2 h3 hh hn hk1 hk2
  have hfi : farmInit args cfg now = farmInitTail args st1 dev now := by
    unfold farmInit
    simp only [h1, h2, h3]
  rw [hfi]
  unfold farmInitTail
  simp only [hh, hn]
  have hget : ConfigStore.get
      (setKey st1.config st1.profile_name "hostname" (String.mk hostname))
      st1.profile_name "oauth_token_url" = none := by
    unfold ConfigStore.get
    rw [sectLookup_setKey_ne _ _ _ _ _ _ (by decide),
        sectLookup_setKey_ne _ _ _ _ _ _ (by decide), hk1, hk2]
  simp only [hget]

/-- Witness for C10: a store whose `DEFAULT` section is empty makes
construction with a valid hostname fail on the token-url lookup. -/
theorem c10_missing_token_url_witness :
    farmInit { hostname := some "example.com".toList } [("DEFAULT", [])] 0 =
      .error (.missingKey "oauth_token_url") :=
  c10_missing_token_url { hostname := some "example.com".toList } [("DEFAULT", [])] 0
    (initState [("DEFAULT", [])] none) false false
    "example.com".toList "https://example.com".toList
    rfl rfl rfl rfl (by decide) rfl rfl

/-- Witness for C8: on a store with only a `DEFAULT` section,
`use_profile("alice", create_profile=True)` creates and activates `alice`
(with `get_profile_name` returning it), `use_profile("alice")` without
creation fails, and `get_profile_name` on the fresh facade state fails. -/
theorem c8_use_profile_witness :
    (∃ st1, use_profile (initState [("DEFAULT", [])] none) "alice" true = .ok st1 ∧
      st1.profile_name = "alice" ∧ st1.profile = some "alice" ∧
      st1.config.has_section "alice" = true ∧
      get_profile_name st1 = .ok "alice") ∧
    use_profile (initState [("DEFAULT", [])] none) "alice" false =
      .error (.missingProfile "alice") ∧
    get_profile_name (initState [("DEFAULT", [])] none) = .error .noActiveProfile := by
  have h1 := c8_use_profile.1 (initState [("DEFAULT", [])] none) "alice" (by decide)
  have h2 := c8_use_profile.2 (initState [("DEFAULT", [])] none) rfl
  exact ⟨h1.1, h1.2, h2⟩

/-! ## Structure of successful normalizations -/

theorem injectScheme_netloc (d : Bool) (p : ParseResult) :
    (injectScheme d p).netloc = p.netloc := by
  unfold injectScheme
  split <;> rfl

theorem injectScheme_path (d : Bool) (p : ParseResult) :
    (injectScheme d p).path = p.path := by
  unfold injectScheme
  split <;> rfl

theorem injectScheme_fragment (d : Bool) (p : ParseResult) :
    (injectScheme d p).fragment = p.fragment := by
  unfold injectScheme
  split <;> rfl

theorem moveNetloc_scheme (p : ParseResult) :
    (moveNetloc p).scheme = p.scheme := by
  unfold moveNetloc
  split <;> rfl

theorem moveNetloc_fragment (p : ParseResult) :
    (moveNetloc p).fragment = p.fragment := by
  unfold moveNetloc
  split <;> rfl

theorem moveNetloc_netloc (p : ParseResult) :
    (moveNetloc p).netloc = p.netloc ∨
      (p.netloc = [] ∧ (moveNetloc p).netloc = p.path) := by
  unfold moveNetloc
  split
  · rename_i hc
    exact .inr ⟨hc.1, rfl⟩
  · exact .inl rfl

/-- Inversion of a successful hostname normalization: the parse succeeded,
the (injected) scheme is valid, after the netloc move the netloc is
non-empty and path/params/query are empty, and the result is the
reassembled URL. -/
theorem normalizeHostname_ok (development : Bool) (s u : List Char)
    (h : normalizeHostname development s = .ok u) :
    ∃ p, urlparse s = .ok p ∧
      (injectScheme development p).scheme ∈ validSchemes ∧
      (moveNetloc (injectScheme development p)).netloc ≠ [] ∧
      (moveNetloc (injectScheme development p)).path = [] ∧
      (moveNetloc (injectScheme development p)).params = [] ∧
      (moveNetloc (injectScheme development p)).query = [] ∧
      u = urlunparse (moveNetloc (injectScheme development p)) := by
  unfold normalizeHostname at h
  split at h
  · exact absurd h (by simp)
  · rename_i p0 hp0
    simp only [] at h
    split at h
    · exact absurd h (by simp)
    · rename_i hs
      split at h
      · exact absurd h (by simp)
      · split at h
        · exact absurd h (by simp)
        · rename_i hn hpq
          push_neg at hpq
          injection h with h'
          exact ⟨p0, hp0, not_not.mp hs, hn, hpq.1, hpq.2.1, hpq.2.2, h'.symm⟩

/-- Reassembly of a bare-host parse result: scheme, `://`, netloc and an
optional fragment. -/
theorem urlunparse_shape (p : ParseResult) (hpa : p.params = []) (hpath : p.path = [])
    (hq : p.query = []) (hn : p.netloc ≠ []) (hs : p.scheme ≠ []) :
    urlunparse p = p.scheme ++ ':' :: '/' :: '/' ::
      (p.netloc ++ (if p.fragment = [] then [] else '#' :: p.fragment)) := by
  unfold urlunparse urlunsplit
  simp only [hpa, hpath, hq, hn, hs]
  by_cases hf : p.fragment = [] <;>
    simp [hf, hn, hs, List.append_assoc]

/-! ## Claim C4 — normalizer rejections -/

/-- C4: after parsing and scheme injection, the normalizer fails with the
invalid-scheme error when the scheme is outside `{http, https}`; with the
missing-host error when, after reinterpreting a bare path as the network
location, the netloc is still empty; and with the invalid-hostname error
when any path, params or query segment remains non-empty. -/
theorem c4_normalizer_rejections :
    ∀ (development : Bool) (s : List Char) (p : ParseResult),
      urlparse s = .ok p →
      ((injectScheme development p).scheme ∉ validSchemes →
        normalizeHostname development s = .error .invalidScheme) ∧
      ((injectScheme development p).scheme ∈ validSchemes →
        (moveNetloc (injectScheme development p)).netloc = [] →
        normalizeHostname development s = .error .missingNetloc) ∧
      ((injectScheme development p).scheme ∈ validSchemes →
        (moveNetloc (injectScheme development p)).netloc ≠ [] →
        ((moveNetloc (injectScheme development p)).path ≠ [] ∨
         (moveNetloc (injectScheme development p)).params ≠ [] ∨
         (moveNetloc (injectScheme development p)).query ≠ []) →
        normalizeHostname development s = .error .invalidHostname) := by
  intro development s p hp
  refine ⟨?_, ?_, ?_⟩
  · intro h
    unfold normalizeHostname
    rw [hp]
    simp only []
    rw [if_pos h]
  · intro h1 h2
    unfold normalizeHostname
    rw [hp]
    simp only []
    rw [if_neg (not_not_intro h1), if_pos h2]
  · intro h1 h2 h3
    unfold normalizeHostname
    rw [hp]
    simp only []
    rw [if_neg (not_not_intro h1), if_neg h2, if_pos h3]

/-- Witness for C4: `ftp://example.com` is rejected for its scheme,
`https:` for its missing host, `https://example.com/path` for its path. -/
theorem c4_normalizer_rejections_witness :
    normalizeHostname false "ftp://example.com".toList = .error .invalidScheme ∧
    normalizeHostname false "https:".toList = .error .missingNetloc ∧
    normalizeHostname false "https://example.com/path".toList = .error .invalidHostname := by
  refine ⟨?_, ?_, ?_⟩
  · exact (c4_normalizer_rejections false "ftp://example.com".toList
      ⟨"ftp".toList, "example.com".toList, [], [], [], []⟩ (by decide)).1 (by decide)
  · exact (c4_normalizer_rejections false "https:".toList
      ⟨"https".toList, [], [], [], [], []⟩ (by decide)).2.1 (by decide) (by decide)
  · exact (c4_normalizer_rejections false "https://example.com/path".toList
      ⟨"https".toList, "example.com".toList, "/path".toList, [], [], []⟩
      (by decide)).2.2 (by decide) (by decide) (by decide)

/-! ## Claim C1 — default scheme injection -/

/-- C1: for every hostname whose parse has no scheme, a successful
normalization yields a URL whose scheme is the injected default — `http`
in development mode, `https` otherwise; and end to end, constructing the
facade with `hostname="example.com"` outside development mode produces the
session base URL `https://example.com`. -/
theorem c1_scheme_default :
    (∀ (development : Bool) (s : List Char) (p : ParseResult) (u : List Char),
        urlparse s = .ok p → p.scheme = [] →
        normalizeHostname development s = .ok u →
        ∃ r, u = (if development then "http".toList else "https".toList) ++
          ':' :: '/' :: '/' :: r) ∧
    sessionHostname (farmInit { hostname := some "example.com".toList }
      [("DEFAULT", [("oauth_token_url", "http://localhost/oauth2/token")])] 0) =
      some "https://example.com".toList := by
  constructor
  · intro development s p u hp hsch h
    obtain ⟨p0, hp0, hv, hn, hpath, hpa, hq, hu⟩ := normalizeHostname_ok development s u h
    rw [hp] at hp0
    injection hp0 with hpp
    subst hpp
    have hsch2 : (moveNetloc (injectScheme development p)).scheme =
        (if development then "http".toList else "https".toList) := by
      rw [moveNetloc_scheme]
      unfold injectScheme
      rw [if_pos hsch]
    have hs : (moveNetloc (injectScheme development p)).scheme ≠ [] := by
      rw [hsch2]
      cases development <;> decide
    refine ⟨(moveNetloc (injectScheme development p)).netloc ++
      (if (moveNetloc (injectScheme development p)).fragment = [] then []
       else '#' :: (moveNetloc (injectScheme development p)).fragment), ?_⟩
    rw [hu, urlunparse_shape _ hpa hpath hq hn hs, hsch2]
  · decide

/-- Witness for C1 at `s = "example.com"`, `development = false`. -/
theorem c1_scheme_default_witness :
    ∃ r, ("https://example.com".toList : List Char) =
      (if (false : Bool) then "http".toList else "https".toList) ++
        ':' :: '/' :: '/' :: r :=
  c1_scheme_default.1 false "example.com".toList
    ⟨[], [], "example.com".toList, [], [], []⟩ "https://example.com".toList
    (by decide) rfl (by decide)

/-! ## Splitting lemmas (towards the idempotence analysis, claim C9) -/

theorem splitOnFirst_none (c : Char) (l : List Char) (h : splitOnFirst c l = none) :
    c ∉ l := by
  induction l with
  | nil => simp
  | cons x xs ih =>
    unfold splitOnFirst at h
    by_cases hx : x = c
    · simp [hx] at h
    · simp only [if_neg hx] at h
      cases hs : splitOnFirst c xs with
      | some p =>
        obtain ⟨a, b⟩ := p
        rw [hs] at h
        simp at h
      | none =>
        intro hm
        rcases List.mem_cons.mp hm with h1 | h1
        · exact hx h1.symm
        · exact ih hs h1

theorem splitOnFirst_eq (c : Char) (l a b : List Char)
    (h : splitOnFirst c l = some (a, b)) : l = a ++ c :: b ∧ c ∉ a := by
  induction l generalizing a b with
  | nil => simp [splitOnFirst] at h
  | cons x xs ih =>
    unfold splitOnFirst at h
    by_cases hx : x = c
    · rw [if_pos hx] at h
      injection h with h'
      obtain ⟨ha, hb⟩ := Prod.mk.injEq _ _ _ _ ▸ h'
      subst hx
      simp [← ha, ← hb]
    · rw [if_neg hx] at h
      cases hs : splitOnFirst c xs with
      | none => rw [hs] at h; simp at h
      | some p =>
        obtain ⟨a', b'⟩ := p
        rw [hs] at h
        injection h with h'
        obtain ⟨ha, hb⟩ := Prod.mk.injEq _ _ _ _ ▸ h'
        obtain ⟨hl, hna⟩ := ih a' b' hs
        subst hb
        refine ⟨?_, ?_⟩
        · rw [← ha, hl]; rfl
        · rw [← ha]
          intro hm
          rcases List.mem_cons.mp hm with h1 | h1
          · exact hx h1.symm
          · exact hna h1

theorem splitOnFirst_append_cons (c : Char) (a b : List Char) (h : c ∉ a) :
    splitOnFirst c (a ++ c :: b) = some (a, b) := by
  induction a with
  | nil => simp [splitOnFirst]
  | cons x xs ih =>
    have hx : x ≠ c := fun hh => h (hh ▸ List.mem_cons_self x xs)
    have h' : c ∉ xs := fun hm => h (List.mem_cons_of_mem _ hm)
    simp only [List.cons_append]
    unfold splitOnFirst
    rw [if_neg hx, ih h']

theorem splitOnLast_none (c : Char) (l : List Char) (h : splitOnLast c l = none) :
    c ∉ l := by
  induction l with
  | nil => simp
  | cons x xs ih =>
    unfold splitOnLast at h
    cases hs : splitOnLast c xs with
    | some p => obtain ⟨a, b⟩ := p; rw [hs] at h; simp at h
    | none =>
      rw [hs] at h
      by_cases hx : x = c
      · simp [hx] at h
      · intro hm
        rcases List.mem_cons.mp hm with h1 | h1
        · exact hx h1.symm
        · exact ih hs h1

theorem splitOnLast_eq (c : Char) (l a b : List Char)
    (h : splitOnLast c l = some (a, b)) : l = a ++ c :: b := by
  induction l generalizing a b with
  | nil => simp [splitOnLast] at h
  | cons x xs ih =>
    unfold splitOnLast at h
    cases hs : splitOnLast c xs with
    | some p =>
      obtain ⟨a', b'⟩ := p
      rw [hs] at h
      injection h with h'
      obtain ⟨ha, hb⟩ := Prod.mk.injEq _ _ _ _ ▸ h'
      subst hb
      rw [← ha, ih a' b' hs]
      rfl
    | none =>
      rw [hs] at h
      by_cases hx : x = c
      · rw [if_pos hx] at h
        injection h with h'
        obtain ⟨ha, hb⟩ := Prod.mk.injEq _ _ _ _ ▸ h'
        subst hx
        simp [← ha, ← hb]
      · rw [if_neg hx] at h
        simp at h

theorem takeWhile_append_all (p : Char → Bool) (a b : List Char)
    (h : ∀ x ∈ a, p x = true) :
    (a ++ b).takeWhile p = a ++ b.takeWhile p := by
  induction a with
  | nil => simp
  | cons x xs ih =>
    have hx := h x (List.mem_cons_self x xs)
    simp [List.takeWhile_cons, hx, ih (fun y hy => h y (List.mem_cons_of_mem _ hy))]

theorem dropWhile_append_all (p : Char → Bool) (a b : List Char)
    (h : ∀ x ∈ a, p x = true) :
    (a ++ b).dropWhile p = b.dropWhile p := by
  induction a with
  | nil => simp
  | cons x xs ih =>
    have hx := h x (List.mem_cons_self x xs)
    simp [List.dropWhile_cons, hx, ih (fun y hy => h y (List.mem_cons_of_mem _ hy))]

theorem mem_of_mem_takeWhile (p : Char → Bool) (l : List Char) (x : Char)
    (h : x ∈ l.takeWhile p) : x ∈ l := by
  conv => rw [← List.takeWhile_append_dropWhile p l]
  exact List.mem_append.mpr (.inl h)

theorem mem_of_mem_dropWhile (p : Char → Bool) (l : List Char) (x : Char)
    (h : x ∈ l.dropWhile p) : x ∈ l := by
  conv => rw [← List.takeWhile_append_dropWhile p l]
  exact List.mem_append.mpr (.inr h)

theorem schemeSplit_snd_subset (l : List Char) : ∀ x ∈ (schemeSplit l).2, x ∈ l := by
  unfold schemeSplit
  split
  · exact fun x hx => hx
  · rename_i a rest hs
    split
    · intro x hx
      obtain ⟨hl, _⟩ := splitOnFirst_eq ':' l a rest hs
      rw [hl]
      exact List.mem_append.mpr (.inr (List.mem_cons_of_mem _ hx))
    · exact fun x hx => hx

theorem splitParams_fst_subset (l : List Char) : ∀ x ∈ (splitParams l).1, x ∈ l := by
  unfold splitParams
  split
  · rename_i hc
    cases hs : splitOnLast '/' l with
    | none => simp
    | some p =>
      obtain ⟨a, b⟩ := p
      simp only []
      cases hs2 : splitOnFirst ';' b with
      | none => simp
      | some q =>
        obtain ⟨b1, b2⟩ := q
        simp only []
        intro x hx
        have hl := splitOnLast_eq '/' l a b hs
        obtain ⟨hb, _⟩ := splitOnFirst_eq ';' b b1 b2 hs2
        rw [hl]
        rcases List.mem_append.mp hx with h1 | h1
        · exact List.mem_append.mpr (.inl h1)
        · rcases List.mem_cons.mp h1 with h2 | h2
          · exact List.mem_append.mpr (.inr (h2 ▸ List.mem_cons_self _ _))
          · refine List.mem_append.mpr (.inr (List.mem_cons_of_mem _ ?_))
            rw [hb]
            exact List.mem_append.mpr (.inl h2)
  · cases hs : splitOnFirst ';' l with
    | none => exact fun x hx => hx
    | some q =>
      obtain ⟨b1, b2⟩ := q
      simp only []
      intro x hx
      obtain ⟨hl, _⟩ := splitOnFirst_eq ';' l b1 b2 hs
      rw [hl]
      exact List.mem_append.mpr (.inl hx)

theorem netlocSplit_fst_mem (u1 : List Char) (x : Char)
    (hx : x ∈ (netlocSplit u1).1) : netlocChar x = true ∧ x ∈ u1 := by
  unfold netlocSplit at hx
  split at hx
  · rename_i rest
    simp only [splitNetloc] at hx
    exact ⟨List.mem_takeWhile_imp hx,
      List.mem_cons_of_mem _ (List.mem_cons_of_mem _ (mem_of_mem_takeWhile _ _ _ hx))⟩
  · simp at hx

theorem netlocSplit_snd_mem (u1 : List Char) (x : Char)
    (hx : x ∈ (netlocSplit u1).2) : x ∈ u1 := by
  unfold netlocSplit at hx
  split at hx
  · rename_i rest
    simp only [splitNetloc] at hx
    exact List.mem_cons_of_mem _ (List.mem_cons_of_mem _ (mem_of_mem_dropWhile _ _ _ hx))
  · exact hx

theorem fragSplit_fst_mem (u2 : List Char) (x : Char)
    (hx : x ∈ (fragSplit u2).1) : x ≠ '#' ∧ x ∈ u2 := by
  unfold fragSplit at hx
  split at hx
  · rename_i a b hs
    obtain ⟨hl, hna⟩ := splitOnFirst_eq '#' u2 a b hs
    exact ⟨fun hh => hna (hh ▸ hx), hl ▸ List.mem_append.mpr (.inl hx)⟩
  · rename_i hs
    have := splitOnFirst_none '#' u2 hs
    exact ⟨fun hh => this (hh ▸ hx), hx⟩

theorem fragSplit_snd_mem (u2 : List Char) (x : Char)
    (hx : x ∈ (fragSplit u2).2) : x ∈ u2 := by
  unfold fragSplit at hx
  split at hx
  · rename_i a b hs
    obtain ⟨hl, _⟩ := splitOnFirst_eq '#' u2 a b hs
    exact hl ▸ List.mem_append.mpr (.inr (List.mem_cons_of_mem _ hx))
  · simp at hx

theorem querySplit_fst_mem (u3 : List Char) (x : Char)
    (hx : x ∈ (querySplit u3).1) : x ≠ '?' ∧ x ∈ u3 := by
  unfold querySplit at hx
  split at hx
  · rename_i a b hs
    obtain ⟨hl, hna⟩ := splitOnFirst_eq '?' u3 a b hs
    exact ⟨fun hh => hna (hh ▸ hx), hl ▸ List.mem_append.mpr (.inl hx)⟩
  · rename_i hs
    have := splitOnFirst_none '?' u3 hs
    exact ⟨fun hh => this (hh ▸ hx), hx⟩

/-- Character classification of a successful `urlsplit`: netloc characters
pass the `_splitnetloc` delimiters and survive the unsafe-byte filter, path
characters contain no `#`/`?` and survive the filter, and fragment
characters survive the filter. -/
theorem urlsplit_ok_chars (url : List Char) (r : SplitResult) (h : urlsplit url = .ok r) :
    (∀ x ∈ r.netloc, netlocChar x = true ∧ urlSafeChar x = true) ∧
    (∀ x ∈ r.path, x ≠ '#' ∧ x ≠ '?' ∧ urlSafeChar x = true) ∧
    (∀ x ∈ r.fragment, urlSafeChar x = true) := by
  unfold urlsplit at h
  simp only [] at h
  split at h
  · exact absurd h (by simp)
  · injection h with h'
    subst h'
    have hsafe0 : ∀ x ∈ List.filter urlSafeChar url, urlSafeChar x = true :=
      fun x hx => List.of_mem_filter hx
    have hsp := schemeSplit_snd_subset (List.filter urlSafeChar url)
    refine ⟨?_, ?_, ?_⟩
    · intro x hx
      obtain ⟨h1, h2⟩ := netlocSplit_fst_mem _ x hx
      exact ⟨h1, hsafe0 x (hsp x h2)⟩
    · intro x hx
      obtain ⟨h1, h2⟩ := querySplit_fst_mem _ x hx
      obtain ⟨h3, h4⟩ := fragSplit_fst_mem _ x h2
      exact ⟨h3, h1, hsafe0 x (hsp x (netlocSplit_snd_mem _ x h4))⟩
    · intro x hx
      exact hsafe0 x (hsp x (netlocSplit_snd_mem _ x (fragSplit_snd_mem _ x hx)))

/-- Character classification lifted to `urlparse` (the params split only
removes characters from the path and reinserts a `/` already present). -/
theorem urlparse_ok_chars (url : List Char) (p : ParseResult) (h : urlparse url = .ok p) :
    (∀ x ∈ p.netloc, netlocChar x = true ∧ urlSafeChar x = true) ∧
    (∀ x ∈ p.path, x ≠ '#' ∧ x ≠ '?' ∧ urlSafeChar x = true) ∧
    (∀ x ∈ p.fragment, urlSafeChar x = true) := by
  unfold urlparse at h
  split at h
  · exact absurd h (by simp)
  · rename_i r hr
    obtain ⟨hn, hp, hf⟩ := urlsplit_ok_chars url r hr
    split at h
    · injection h with h'
      subst h'
      exact ⟨hn, fun x hx => hp x (splitParams_fst_subset r.path x hx), hf⟩
    · injection h with h'
      subst h'
      exact ⟨hn, hp, hf⟩

theorem netlocChar_of (x : Char) (h1 : x ≠ '/') (h2 : x ≠ '?') (h3 : x ≠ '#') :
    netlocChar x = true := by
  simp [netlocChar, h1, h2, h3]

/-- Renormalizing a canonical output: a URL of the shape
`scheme://netloc[#fragment]` with `scheme ∈ {http, https}`, a non-empty
netloc free of `_splitnetloc` delimiters and unsafe bytes, and balanced
square brackets, is a fixed point of the normalizer. -/
theorem normalize_fixed (development : Bool) (sch n f : List Char)
    (hs : sch = "http".toList ∨ sch = "https".toList)
    (hn : n ≠ [])
    (hnc : ∀ x ∈ n, netlocChar x = true)
    (hnsafe : ∀ x ∈ n, urlSafeChar x = true)
    (hfsafe : ∀ x ∈ f, urlSafeChar x = true)
    (hbr : (n.contains '[' = true ↔ n.contains ']' = true)) :
    normalizeHostname development
      (sch ++ ':' :: '/' :: '/' :: (n ++ (if f = [] then [] else '#' :: f))) =
    .ok (sch ++ ':' :: '/' :: '/' :: (n ++ (if f = [] then [] else '#' :: f))) := by
  set fpart : List Char := if f = [] then [] else '#' :: f with hfp
  have hallsafe : ∀ x ∈ sch ++ ':' :: '/' :: '/' :: (n ++ fpart), urlSafeChar x = true := by
    intro x hx
    rcases List.mem_append.mp hx with h1 | h1
    · rcases hs with h' | h' <;> rw [h'] at h1
      · exact (by decide : ∀ y ∈ "http".toList, urlSafeChar y = true) x h1
      · exact (by decide : ∀ y ∈ "https".toList, urlSafeChar y = true) x h1
    · rcases List.mem_cons.mp h1 with h2 | h2
      · subst h2; decide
      · rcases List.mem_cons.mp h2 with h3 | h3
        · subst h3; decide
        · rcases List.mem_cons.mp h3 with h4 | h4
          · subst h4; decide
          · rcases List.mem_append.mp h4 with h5 | h5
            · exact hnsafe x h5
            · rw [hfp] at h5
              by_cases hf : f = []
              · simp [hf] at h5
              · rw [if_neg hf] at h5
                rcases List.mem_cons.mp h5 with h6 | h6
                · subst h6; decide
                · exact hfsafe x h6
  have hu0 : List.filter urlSafeChar (sch ++ ':' :: '/' :: '/' :: (n ++ fpart)) =
      sch ++ ':' :: '/' :: '/' :: (n ++ fpart) := List.filter_eq_self.mpr hallsafe
  have hcolon : (':' : Char) ∉ sch := by
    rcases hs with h' | h' <;> rw [h'] <;> decide
  have hsplitc : splitOnFirst ':' (sch ++ ':' :: '/' :: '/' :: (n ++ fpart)) =
      some (sch, '/' :: '/' :: (n ++ fpart)) :=
    splitOnFirst_append_cons ':' sch ('/' :: '/' :: (n ++ fpart)) hcolon
  have hss : schemeSplit (sch ++ ':' :: '/' :: '/' :: (n ++ fpart)) =
      (sch, '/' :: '/' :: (n ++ fpart)) := by
    have hcond : sch ≠ [] ∧ (sch.headD ' ').isAlpha ∧ sch.all schemeChar := by
      rcases hs with h' | h' <;> rw [h'] <;> exact ⟨by decide, by decide, by decide⟩
    have hlower : sch.map Char.toLower = sch := by
      rcases hs with h' | h' <;> rw [h'] <;> decide
    unfold schemeSplit
    simp only [hsplitc]
    rw [if_pos hcond, hlower]
  have htw : (n ++ fpart).takeWhile netlocChar = n := by
    rw [takeWhile_append_all _ _ _ hnc]
    rw [hfp]
    by_cases hf : f = []
    · simp [hf]
    · rw [if_neg hf]
      have hsharp : netlocChar '#' = false := by decide
      simp [List.takeWhile_cons, hsharp]
  have hdw : (n ++ fpart).dropWhile netlocChar = fpart := by
    rw [dropWhile_append_all _ _ _ hnc]
    rw [hfp]
    by_cases hf : f = []
    · simp [hf]
    · rw [if_neg hf]
      have hsharp : netlocChar '#' = false := by decide
      simp [List.dropWhile_cons, hsharp]
  have hnl : netlocSplit ('/' :: '/' :: (n ++ fpart)) = (n, fpart) := by
    have h1 : netlocSplit ('/' :: '/' :: (n ++ fpart)) = splitNetloc (n ++ fpart) := rfl
    rw [h1]
    unfold splitNetloc
    rw [htw, hdw]
  have hbr' : ¬((n.contains '[' ∧ ¬n.contains ']') ∨ (n.contains ']' ∧ ¬n.contains '[')) := by
    rintro (⟨h1, h2⟩ | ⟨h1, h2⟩)
    · exact h2 (hbr.mp h1)
    · exact h2 (hbr.mpr h1)
  have hfr : fragSplit fpart = ([], f) := by
    rw [hfp]
    by_cases hf : f = []
    · simp [hf, fragSplit, splitOnFirst]
    · rw [if_neg hf]
      simp [fragSplit, splitOnFirst]
  have hq : querySplit ([] : List Char) = ([], []) := rfl
  have hsplitu : urlsplit (sch ++ ':' :: '/' :: '/' :: (n ++ fpart)) =
      .ok ⟨sch, n, [], [], f⟩ := by
    unfold urlsplit
    simp only [hu0, hss, hnl, hfr, hq]
    rw [if_neg hbr']
  have hparse : urlparse (sch ++ ':' :: '/' :: '/' :: (n ++ fpart)) =
      .ok ⟨sch, n, [], [], [], f⟩ := by
    unfold urlparse
    simp only [hsplitu]
    split
    · rename_i hcond
      exact absurd hcond.2 (by decide)
    · rfl
  have hsne : sch ≠ [] := by
    rcases hs with h' | h' <;> rw [h'] <;> decide
  have hvs : sch ∈ validSchemes := by
    rcases hs with h' | h' <;> rw [h'] <;> decide
  have hinj : injectScheme development ⟨sch, n, [], [], [], f⟩ = ⟨sch, n, [], [], [], f⟩ := by
    unfold injectScheme
    rw [if_neg hsne]
  have hmv : moveNetloc ⟨sch, n, [], [], [], f⟩ = ⟨sch, n, [], [], [], f⟩ := by
    unfold moveNetloc
    rw [if_neg ?_]
    rintro ⟨-, h2⟩
    exact h2 rfl
  have hshape := urlunparse_shape ⟨sch, n, [], [], [], f⟩ rfl rfl rfl hn hsne
  unfold normalizeHostname
  simp only [hparse]
  rw [hinj, hmv]
  rw [if_neg (not_not_intro hvs), if_neg hn, if_neg (by simp)]
  rw [hshape]

/-! ## Claim C9 — idempotence of hostname normalization -/

/-- Counterexample to C9 as stated: the normalizer accepts `a/b` (the bare
path, slash included, is reinterpreted as the network location), producing
`https://a/b`, but feeding that canonical output back through the
normalizer is rejected with the invalid-hostname error — reparsing splits
the slash off into a path segment. -/
theorem c9_counterexample :
    normalizeHostname false "a/b".toList = .ok "https://a/b".toList ∧
    normalizeHostname false "https://a/b".toList = .error .invalidHostname :=
  ⟨by decide, by decide⟩

/-- C9 (amended): normalization is idempotent on every accepted input
whose resulting network location contains no `/` and has balanced square
brackets: renormalizing the produced canonical URL succeeds and returns it
unchanged.  (Accepted inputs whose netloc keeps a slash — possible only
through the bare-path reinterpretation — are rejected on the second pass,
as the counterexample shows.) -/
theorem c9_idempotent :
    ∀ (development : Bool) (s u : List Char) (p : ParseResult),
      urlparse s = .ok p →
      normalizeHostname development s = .ok u →
      (moveNetloc (injectScheme development p)).netloc.contains '/' = false →
      ((moveNetloc (injectScheme development p)).netloc.contains '[' = true ↔
        (moveNetloc (injectScheme development p)).netloc.contains ']' = true) →
      normalizeHostname development u = .ok u := by
  intro development s u p hp h hns hbr
  obtain ⟨p0, hp0, hv, hn, hpath, hpa, hq, hu⟩ := normalizeHostname_ok development s u h
  rw [hp] at hp0
  injection hp0 with hpp
  subst hpp
  obtain ⟨hnlc, hplc, hflc⟩ := urlparse_ok_chars s p hp
  have hsch : (moveNetloc (injectScheme development p)).scheme ∈ validSchemes := by
    rw [moveNetloc_scheme]
    exact hv
  have hsform : (moveNetloc (injectScheme development p)).scheme = "http".toList ∨
      (moveNetloc (injectScheme development p)).scheme = "https".toList := by
    simpa [validSchemes] using hsch
  have hnotmem : ('/' : Char) ∉ (moveNetloc (injectScheme development p)).netloc := by
    simpa using hns
  have hnmem : ∀ x ∈ (moveNetloc (injectScheme development p)).netloc,
      netlocChar x = true ∧ urlSafeChar x = true := by
    rcases moveNetloc_netloc (injectScheme development p) with hcase | ⟨hz, hcase⟩
    · rw [hcase, injectScheme_netloc]
      exact hnlc
    · rw [hcase, injectScheme_path] at hnotmem ⊢
      intro x hx
      obtain ⟨h1, h2, h3⟩ := hplc x hx
      exact ⟨netlocChar_of x (fun hh => hnotmem (hh ▸ hx)) h2 h1, h3⟩
  have hfr : ∀ x ∈ (moveNetloc (injectScheme development p)).fragment,
      urlSafeChar x = true := by
    rw [moveNetloc_fragment, injectScheme_fragment]
    exact hflc
  have hshape := urlunparse_shape (moveNetloc (injectScheme development p)) hpa hpath hq hn
    (by rcases hsform with h' | h' <;> rw [h'] <;> decide)
  rw [hu, hshape]
  exact normalize_fixed development _ _ _ hsform hn (fun x hx => (hnmem x hx).1)
    (fun x hx => (hnmem x hx).2) hfr hbr

/-- Witness for C9 (amended) at `s = "example.com"`: renormalizing the
produced `https://example.com` returns it unchanged. -/
theorem c9_idempotent_witness :
    normalizeHostname false "https://example.com".toList =
      .ok "https://example.com".toList :=
  c9_idempotent false "example.com".toList "https://example.com".toList
    ⟨[], [], "example.com".toList, [], [], []⟩
    (by decide) (by decide) (by decide) (by decide)
